import Mathlib

/-!
Shallow embedding of `src/tools/dir2exe.c` — a self-extracting-archive
packer (`packer.exe`) and loader stub, sharing one on-disk container format.

Modelling conventions:
* Files and archives are `List Nat` of byte values; `u64` fields are
  serialized little-endian (x86), struct layout follows `#pragma pack(1)`:
  `ManifestEntry` is `8 + 8 + 1 + MAX_PATH = 277` bytes, `ArchiveFooter` is
  `8 + 8 = 16` bytes.
* The C code leaves the bytes after a path's NUL terminator in a
  `char[MAX_PATH]` buffer indeterminate; the model zero-fills them. Readers
  only consume the bytes up to the first NUL, so no claim distinguishes the
  two as long as deserialization stops at the NUL (it does).
* `append_file_to_archive` leaves `entry->offset` uninitialized when the
  source file cannot be opened; the model exposes the indeterminate value as
  the `junkOffset` field of the input, universally quantified in theorems.
* OS interactions (opening the own executable, target-file writability,
  `CreateProcessA`'s outcome) are inputs of the loader model (`LoaderEnv`).
-/

set_option maxRecDepth 4000

namespace Dir2Exe

/-- `MAX_PATH` on Windows. -/
def MAX_PATH : Nat := 260

/-- Bytes of the string literal `"DIR2EXE"` including its NUL terminator:
the 8 bytes `strcpy` places into `footer.magic`. -/
def MAGIC : List Nat := [68, 73, 82, 50, 69, 88, 69, 0]

/-- `sizeof(ManifestEntry)` under `#pragma pack(1)`. -/
def entrySize : Nat := 17 + MAX_PATH

/-- `sizeof(ArchiveFooter)` under `#pragma pack(1)`. -/
def footerSize : Nat := 16

/-- The `ManifestEntry` struct: payload offset, payload size, main-executable
flag, and the relative path (bytes up to the NUL). -/
structure ManifestEntry where
  offset : Nat
  size : Nat
  is_executable : Bool
  relative_path : List Nat
deriving DecidableEq, Repr

/-- Little-endian serialization of a `uint64_t` (8 bytes, low byte first). -/
def u64le (n : Nat) : List Nat :=
  [n % 256, n / 256 % 256, n / 256 ^ 2 % 256, n / 256 ^ 3 % 256,
   n / 256 ^ 4 % 256, n / 256 ^ 5 % 256, n / 256 ^ 6 % 256, n / 256 ^ 7 % 256]

/-- Little-endian byte-list decoding, as `fread` into a `uint64_t` on x86.
A short read leaves the missing high bytes zero in the model. -/
def u64dec : List Nat → Nat
  | [] => 0
  | b :: bs => b + 256 * u64dec bs

/-- C `strcmp(a, b) == 0` on byte lists: walk both, stop unequal at the first
differing byte, stop equal at a shared NUL. -/
def cstrEq : List Nat → List Nat → Bool
  | [], [] => true
  | _ :: _, [] => false
  | [], _ :: _ => false
  | a :: as, b :: bs => if a ≠ b then false else if a = 0 then true else cstrEq as bs

/-- The `char[MAX_PATH]` buffer holding `p` then a NUL: `strcpy` writes
`p ++ [0]`, the rest of the buffer is padding (zero-filled in the model). -/
def padPath (p : List Nat) : List Nat := p ++ List.replicate (MAX_PATH - p.length) 0

/-- The 277 serialized bytes of one `ManifestEntry`. -/
def serEntry (e : ManifestEntry) : List Nat :=
  u64le e.offset ++ u64le e.size ++ [if e.is_executable then 1 else 0]
    ++ padPath e.relative_path

/-- The serialized manifest: `entry_count` then each entry, no padding. -/
def serManifest (entries : List ManifestEntry) : List Nat :=
  u64le entries.length ++ (entries.map serEntry).flatten

/-- The 16 serialized bytes of the `ArchiveFooter`. -/
def serFooter (manifest_offset : Nat) : List Nat := u64le manifest_offset ++ MAGIC

/-- Deserialization of one `ManifestEntry` from its 277 bytes, as the loader
consumes it: `u64` fields little-endian, flag nonzero, path up to the NUL. -/
def deserEntry (bs : List Nat) : ManifestEntry :=
  { offset := u64dec (bs.take 8)
    size := u64dec ((bs.drop 8).take 8)
    is_executable := (bs.drop 16).headD 0 != 0
    relative_path := ((bs.drop 17).take MAX_PATH).takeWhile (fun b => b != 0) }

/-! ## Packer (`src/tools/dir2exe.c`, `#ifdef PACKER`) -/

/-- One regular file produced by the directory walk (`FindFirstFileA`
enumeration flattened depth-first, in production order): its path relative
to the packed directory and its content — `none` when `fopen` fails.
`junkOffset` stands for the indeterminate value `entry->offset` keeps when
`append_file_to_archive` returns early on an unreadable source. -/
structure SrcFile where
  rel : List Nat
  data : Option (List Nat)
  junkOffset : Nat
deriving DecidableEq, Repr

/-- Result of `append_file_to_archive`: the filled `offset`/`size` fields,
the grown archive bytes, and whether the could-not-open warning fired. -/
structure AppendResult where
  offset : Nat
  size : Nat
  out : List Nat
  warned : Bool
deriving DecidableEq, Repr

/-- `append_file_to_archive`: on an unreadable source, warn and set
`size = 0` leaving `offset` untouched; otherwise record the current output
position and length and stream the bytes. -/
def append_file_to_archive (out : List Nat) (data : Option (List Nat))
    (junk : Nat) : AppendResult :=
  match data with
  | none => { offset := junk, size := 0, out := out, warned := true }
  | some bs => { offset := out.length, size := bs.length, out := out ++ bs, warned := false }

/-- Mutable state threaded through `walk_directory`: the archive bytes, the
manifest list (head = most recently prepended node), and warnings. -/
structure PackState where
  out : List Nat
  man : List ManifestEntry
  warns : List (List Nat)
deriving DecidableEq, Repr

/-- One iteration of `walk_directory`'s file branch: prepend a fresh node
(`is_executable = 0`, the walked relative path) and fill it by
`append_file_to_archive`. -/
def walkStep (st : PackState) (f : SrcFile) : PackState :=
  let r := append_file_to_archive st.out f.data f.junkOffset
  { out := r.out
    man := { offset := r.offset, size := r.size, is_executable := false,
             relative_path := f.rel } :: st.man
    warns := if r.warned then st.warns ++ [f.rel] else st.warns }

/-- `walk_directory`, over the flattened depth-first production order. -/
def walk_directory (st : PackState) : List SrcFile → PackState
  | [] => st
  | f :: fs => walk_directory (walkStep st f) fs

/-- `strrchr(p, '\\') ? strrchr(p, '\\') + 1 : p`: the bytes after the last
backslash (92), or all of `p` when it has none. -/
def baseName (p : List Nat) : List Nat :=
  p.foldl (fun acc c => if c = 92 then [] else acc ++ [c]) []

/-- A successful pack: the produced archive bytes, the manifest entries in
the order they are serialized, and the emitted warnings. -/
structure PackOutput where
  archive : List Nat
  entries : List ManifestEntry
  warns : List (List Nat)
deriving DecidableEq, Repr

/-- The packer `main` after argument parsing, for a writable output path:
write the loader stub (abort — `none`, exit 1 — if it is missing or empty),
walk the directory, append the main executable under its base filename with
`is_executable = 1` prepended to the manifest list, then write
`entry_count`, the entries head-to-tail, and the footer. -/
def packer (stub : Option (List Nat)) (files : List SrcFile)
    (mainPath : List Nat) (mainData : Option (List Nat)) (mainJunk : Nat) :
    Option PackOutput :=
  let r0 := append_file_to_archive [] stub 0
  if r0.size = 0 then none
  else
    let st := walk_directory { out := r0.out, man := [], warns := [] } files
    let rexe := append_file_to_archive st.out mainData mainJunk
    let exeEntry : ManifestEntry :=
      { offset := rexe.offset, size := rexe.size, is_executable := true,
        relative_path := baseName mainPath }
    let entries := exeEntry :: st.man
    let manifest_offset := rexe.out.length
    some { archive := rexe.out ++ serManifest entries ++ serFooter manifest_offset
           entries := entries
           warns := st.warns ++ (if rexe.warned then [mainPath] else []) }

/-! ## Loader (`src/tools/dir2exe.c`, `#ifdef LOADER`) -/

/-- The loader's OS environment: whether `fopen(self_path, "rb")` succeeds,
the unique temporary directory handed out by `GetTempFileNameA`, which
target paths `fopen(out_path, "wb")` can open, and the outcome of
`CreateProcessA` + `WaitForSingleObject` on the tracked executable
(`none` = launch failed, `some c` = child exited with code `c`). -/
structure LoaderEnv where
  selfOpenable : Bool
  tempDir : List Nat
  writable : List Nat → Bool
  spawnExit : Option Nat

/-- Everything observable about one loader run: the exit code, the
`(out_path, bytes)` writes performed, whether the temporary directory was
created, whether cleanup was attempted, and the path handed to
`CreateProcessA` (when any). -/
structure LoaderResult where
  exitCode : Nat
  extracted : List (List Nat × List Nat)
  tempDirCreated : Bool
  cleanupAttempted : Bool
  launched : Option (List Nat)

/-- `snprintf(out_path, MAX_PATH, "%s\\%s", temp_dir, rel)`: join with a
backslash, truncated to `MAX_PATH - 1` bytes. -/
def outPath (tempDir rel : List Nat) : List Nat :=
  (tempDir ++ 92 :: rel).take (MAX_PATH - 1)

/-- The footer field `magic` of a byte file: bytes 8..16 of its last 16. -/
def magicField (self : List Nat) : List Nat :=
  ((self.drop (self.length - footerSize)).drop 8).take 8

/-- The footer field `manifest_offset`: bytes 0..8 of the file's last 16. -/
def manifestOffsetOf (self : List Nat) : Nat :=
  u64dec ((self.drop (self.length - footerSize)).take 8)

/-- The loader's manifest read: `entry_count` at `manifest_offset`, then
that many 277-byte records, deserialized in place. No validation of the
count or of any offset/size happens — the values are trusted verbatim. -/
def readManifest (self : List Nat) : List ManifestEntry :=
  let mo := manifestOffsetOf self
  let count := u64dec ((self.drop mo).take 8)
  (List.range count).map fun i =>
    deserEntry ((self.drop (mo + 8 + i * entrySize)).take entrySize)

/-- The extraction loop, threading `(extracted writes, main_exe_path)`:
each entry's target is `temp_dir \ relative_path`; if it cannot be opened
the entry is skipped (`continue`); otherwise `size` bytes from `offset` are
streamed to it, and an `is_executable` entry overwrites `main_exe_path`. -/
def runEntries (self : List Nat) (env : LoaderEnv) :
    List ManifestEntry → List (List Nat × List Nat) × List Nat →
    List (List Nat × List Nat) × List Nat
  | [], st => st
  | e :: es, st =>
    let op := outPath env.tempDir e.relative_path
    if env.writable op then
      runEntries self env es
        (st.1 ++ [(op, (self.drop e.offset).take e.size)],
         if e.is_executable then op else st.2)
    else
      runEntries self env es st

/-- The loader `main`: open the own file (exit 1 on failure), check the
footer magic (exit 2 and no filesystem writes on mismatch), read the
manifest, create the temporary directory, extract every entry, launch the
tracked executable when one was recorded, clean up, and return the child's
exit code — or 1 when nothing was tracked or the launch failed. -/
def loader (env : LoaderEnv) (self : List Nat) : LoaderResult :=
  if env.selfOpenable then
    if cstrEq (magicField self) MAGIC then
      let entries := readManifest self
      let r := runEntries self env entries ([], [])
      { exitCode := if r.2 = [] then 1 else env.spawnExit.getD 1
        extracted := r.1
        tempDirCreated := true
        cleanupAttempted := true
        launched := if r.2 = [] then none else some r.2 }
    else
      { exitCode := 2, extracted := [], tempDirCreated := false,
        cleanupAttempted := false, launched := none }
  else
    { exitCode := 1, extracted := [], tempDirCreated := false,
      cleanupAttempted := false, launched := none }

/-! ## Path resolution (to state the extraction-escape property) -/

/-- Split a path on the directory separators `\` (92) and `/` (47). -/
def splitPath (p : List Nat) : List (List Nat) :=
  p.foldr
    (fun c acc =>
      if c = 92 ∨ c = 47 then [] :: acc
      else match acc with
        | [] => [[c]]
        | a :: as => (c :: a) :: as)
    [[]]

/-- Filesystem resolution of a path's components: `..` pops one component,
`.` and empty components vanish, everything else accumulates. -/
def resolve (p : List Nat) : List (List Nat) :=
  (splitPath p).foldl
    (fun acc c =>
      if c = [46, 46] then acc.dropLast
      else if c = [] ∨ c = [46] then acc
      else acc ++ [c])
    []

/-- A path stays under a root when the root's resolved components lead its
own resolved components. -/
def isUnder (root p : List Nat) : Bool :=
  (resolve root).isPrefixOf (resolve p)

/-! ## Closed forms used to state and prove the claims -/

/-- Well-formed manifest entry: serialization is injective on these. -/
def wfEntry (e : ManifestEntry) : Prop :=
  e.relative_path.length < MAX_PATH ∧ (0 : Nat) ∉ e.relative_path ∧
    e.offset < 2 ^ 64 ∧ e.size < 2 ^ 64

/-- The payload bytes a source file contributes (nothing when unreadable). -/
def payloadOf (f : SrcFile) : List Nat := f.data.getD []

/-- All payload bytes of the walked files, in production order. -/
def walkPayload (fs : List SrcFile) : List Nat := (fs.map payloadOf).flatten

/-- The manifest entry the walk records for `f` when the output position is
`pos`: the unreadable case keeps the indeterminate offset. -/
def walkEntry (pos : Nat) (f : SrcFile) : ManifestEntry :=
  { offset := if f.data.isSome then pos else f.junkOffset
    size := (payloadOf f).length
    is_executable := false
    relative_path := f.rel }

/-- The walked entries in production order, starting at output position
`pos`. -/
def walkEntries (pos : Nat) : List SrcFile → List ManifestEntry
  | [] => []
  | f :: fs => walkEntry pos f :: walkEntries (pos + (payloadOf f).length) fs

/-- The warnings the walk emits: one per unreadable file, in order. -/
def warnsOf (fs : List SrcFile) : List (List Nat) :=
  (fs.filter fun f => f.data.isNone).map SrcFile.rel

/-- The archive prefix a successful pack writes before the manifest: loader
stub, walked payloads, main-executable payload. -/
def packPre (stub : List Nat) (files : List SrcFile)
    (mainData : Option (List Nat)) : List Nat :=
  stub ++ walkPayload files ++ mainData.getD []

/-- The main executable's manifest entry of a successful pack. -/
def mainEntry (stub : List Nat) (files : List SrcFile) (mainPath : List Nat)
    (mainData : Option (List Nat)) (mainJunk : Nat) : ManifestEntry :=
  { offset := if mainData.isSome then (stub ++ walkPayload files).length else mainJunk
    size := (mainData.getD []).length
    is_executable := true
    relative_path := baseName mainPath }

/-- The manifest entries of a successful pack, in serialization order: the
list was built by prepending, so the main executable comes first and the
walked files follow in reverse production order. -/
def packEntries (stub : List Nat) (files : List SrcFile) (mainPath : List Nat)
    (mainData : Option (List Nat)) (mainJunk : Nat) : List ManifestEntry :=
  mainEntry stub files mainPath mainData mainJunk :: (walkEntries stub.length files).reverse

/-- The writes the extraction loop performs: unwritable targets are skipped,
every other entry yields its target path and the archive slice at its
`(offset, size)`. -/
def extractOf (self : List Nat) (env : LoaderEnv)
    (entries : List ManifestEntry) : List (List Nat × List Nat) :=
  entries.filterMap fun e =>
    let op := outPath env.tempDir e.relative_path
    if env.writable op then some (op, (self.drop e.offset).take e.size) else none

/-- The final `main_exe_path` after the extraction loop, starting from `m`:
each extracted executable-flagged entry overwrites it with its target. -/
def mepOf (env : LoaderEnv) (entries : List ManifestEntry) (m : List Nat) : List Nat :=
  entries.foldl
    (fun m e =>
      let op := outPath env.tempDir e.relative_path
      if env.writable op then (if e.is_executable then op else m) else m) m

/-! ## Concrete fixtures for demonstrations and witnesses -/

/-- Bytes of `"..\\..\\evil.exe"`: the adversarial relative path of the
spec's Scenario B. -/
def evilRel : List Nat := [46, 46, 92, 46, 46, 92, 101, 118, 105, 108, 46, 101, 120, 101]

/-- A manifest entry carrying the adversarial relative path. -/
def evilEntry : ManifestEntry :=
  { offset := 0, size := 1, is_executable := true, relative_path := evilRel }

/-- A syntactically valid archive (good footer and magic) whose single
manifest entry carries the adversarial relative path. -/
def evilArchive : List Nat := [0] ++ serManifest [evilEntry] ++ serFooter 1

/-- Bytes of `"C:\\Tmp\\d2e"`, a concrete extraction root. -/
def evilTempDir : List Nat := [67, 58, 92, 84, 109, 112, 92, 100, 50, 101]

/-- Loader environment for the escape demonstration: everything writable. -/
def evilEnv : LoaderEnv :=
  { selfOpenable := true, tempDir := evilTempDir, writable := fun _ => true,
    spawnExit := some 0 }

/-- A manifest entry whose `(offset, size)` lies far beyond the bounds of
any small archive. -/
def oobEntry : ManifestEntry :=
  { offset := 1000000, size := 5, is_executable := true, relative_path := [101] }

/-- A syntactically valid archive (good footer and magic) whose single
manifest entry points far outside the file. -/
def oobArchive : List Nat := [0] ++ serManifest [oobEntry] ++ serFooter 1

/-- Loader environment for the out-of-bounds demonstration. -/
def oobEnv : LoaderEnv :=
  { selfOpenable := true, tempDir := [84], writable := fun _ => true,
    spawnExit := some 0 }

/-- Walk output of a small fixture pack: one readable file `"a"` and one
unreadable file `"u"` (its indeterminate offset instantiated at 3). -/
def wFiles : List SrcFile := [⟨[97], some [10, 11], 0⟩, ⟨[117], none, 3⟩]

/-- Fixture main-executable path `"d\\m"`. -/
def wMainPath : List Nat := [100, 92, 109]

/-- Fixture pack result. -/
def wPack : Option PackOutput := packer (some [7, 7]) wFiles wMainPath (some [30]) 0

/-- The fixture pack's output (defaulting to empty, never taken). -/
def wPO : PackOutput := wPack.getD { archive := [], entries := [], warns := [] }

/-- Fixture loader environment: everything writable, child exits with 5. -/
def wEnv : LoaderEnv :=
  { selfOpenable := true, tempDir := [84], writable := fun _ => true,
    spawnExit := some 5 }

/-- An archive for the skipped-executable demonstration: one ordinary entry
`"a"` and one executable-flagged entry `"b"`, both with in-bounds payloads. -/
def c10Archive : List Nat :=
  [9, 8, 7] ++ serManifest
    [{ offset := 0, size := 2, is_executable := false, relative_path := [97] },
     { offset := 1, size := 1, is_executable := true, relative_path := [98] }]
  ++ serFooter 3

/-- Loader environment where exactly the executable entry's target
`"T\\b"` cannot be opened for writing. -/
def c10Env : LoaderEnv :=
  { selfOpenable := true, tempDir := [84], writable := fun p => p != [84, 92, 98],
    spawnExit := some 0 }

/-! ## Serialization lemmas -/

theorem u64le_length (n : Nat) : (u64le n).length = 8 := by
  simp [u64le]

theorem u64dec_u64le (n : Nat) (h : n < 2 ^ 64) : u64dec (u64le n) = n := by
  simp only [u64le, u64dec]
  omega

theorem serFooter_length (n : Nat) : (serFooter n).length = footerSize := by
  simp [serFooter, u64le, MAGIC, footerSize]

theorem padPath_length (p : List Nat) (h : p.length ≤ MAX_PATH) :
    (padPath p).length = MAX_PATH := by
  simp [padPath]
  omega

theorem serEntry_length (e : ManifestEntry) (h : e.relative_path.length ≤ MAX_PATH) :
    (serEntry e).length = entrySize := by
  simp [serEntry, u64le, padPath, entrySize]
  omega

theorem takeWhile_ne_zero_append (xs rest : List Nat) (h : (0 : Nat) ∉ xs) :
    (xs ++ 0 :: rest).takeWhile (fun b => b != 0) = xs := by
  induction xs with
  | nil => simp [List.takeWhile]
  | cons a as ih =>
    simp only [List.mem_cons, not_or] at h
    simp only [List.cons_append, List.takeWhile_cons]
    have ha : (a != 0) = true := by simpa [bne] using fun hh => h.1 hh.symm
    rw [ha]
    simp [ih h.2]

theorem deserEntry_serEntry (e : ManifestEntry) (hw : wfEntry e) :
    deserEntry (serEntry e) = e := by
  obtain ⟨hlen, h0, ho, hs⟩ := hw
  have h8 : (u64le e.offset).length = 8 := u64le_length _
  have hdrop8 : (serEntry e).drop 8 =
      u64le e.size ++ ([if e.is_executable then 1 else 0] ++ padPath e.relative_path) := by
    simp only [serEntry, List.append_assoc]
    exact List.drop_left' h8
  have hdrop16 : (serEntry e).drop 16 =
      (if e.is_executable then 1 else 0) :: padPath e.relative_path := by
    rw [show (16 : Nat) = 8 + 8 by rfl, ← List.drop_drop, hdrop8]
    rw [List.drop_left' (u64le_length _)]
    simp
  have hdrop17 : (serEntry e).drop 17 = padPath e.relative_path := by
    rw [show (17 : Nat) = 16 + 1 by rfl, ← List.drop_drop, hdrop16]
    simp
  have hpadsplit : padPath e.relative_path =
      e.relative_path ++ 0 :: List.replicate (MAX_PATH - e.relative_path.length - 1) 0 := by
    unfold padPath
    have h1 : MAX_PATH - e.relative_path.length =
        (MAX_PATH - e.relative_path.length - 1) + 1 := by
      unfold MAX_PATH at hlen ⊢; omega
    conv_lhs => rw [h1]
    rw [List.replicate_succ]
  unfold deserEntry
  have htake8 : (serEntry e).take 8 = u64le e.offset := by
    simp only [serEntry, List.append_assoc]
    exact List.take_left' h8
  have hofs : u64dec ((serEntry e).take 8) = e.offset := by
    rw [htake8]; exact u64dec_u64le _ ho
  have hsz : u64dec (((serEntry e).drop 8).take 8) = e.size := by
    rw [hdrop8, List.take_left' (u64le_length _)]; exact u64dec_u64le _ hs
  have hexe : (((serEntry e).drop 16).headD 0 != 0) = e.is_executable := by
    rw [hdrop16]
    cases e.is_executable <;> simp
  have hpath : (((serEntry e).drop 17).take MAX_PATH).takeWhile (fun b => b != 0) =
      e.relative_path := by
    rw [hdrop17, List.take_of_length_le (le_of_eq (padPath_length _ (le_of_lt hlen)))]
    rw [hpadsplit]
    exact takeWhile_ne_zero_append _ _ h0
  rw [hofs, hsz, hexe, hpath]

theorem cstrEq_true_eq (s : List Nat) :
    ∀ m : List Nat, (∀ x ∈ s, x ≠ 0) → m.length = s.length + 1 →
      cstrEq m (s ++ [0]) = true → m = s ++ [0] := by
  induction s with
  | nil =>
    intro m hn hl hc
    match m, hl with
    | [a], _ =>
      simp only [List.nil_append, cstrEq] at hc ⊢
      by_cases ha : a = 0
      · simp [ha]
      · simp [ha] at hc
  | cons b bs ih =>
    intro m hn hl hc
    match m, hl with
    | a :: as, hl2 =>
      simp only [List.cons_append, cstrEq] at hc
      by_cases hab : a = b
      · subst hab
        have ha : a ≠ 0 := hn a (List.mem_cons_self a bs)
        have hc' : cstrEq as (bs ++ [0]) = true := by
          simpa [ha] using hc
        have has : as = bs ++ [0] :=
          ih as (fun x hx => hn x (List.mem_cons_of_mem _ hx)) (by simpa using hl2) hc'
        simp [has]
      · simp [hab] at hc

theorem eq_magic_of_cstrEq (m : List Nat) (h : m.length = 8)
    (hc : cstrEq m MAGIC = true) : m = MAGIC := by
  have hs : MAGIC = [68, 73, 82, 50, 69, 88, 69] ++ [0] := by decide
  rw [hs] at hc ⊢
  exact cstrEq_true_eq _ m (by decide) (by simpa using h) hc

/-! ## Packer closed forms -/

theorem walk_directory_eq (fs : List SrcFile) : ∀ st : PackState,
    walk_directory st fs =
      { out := st.out ++ walkPayload fs
        man := (walkEntries st.out.length fs).reverse ++ st.man
        warns := st.warns ++ warnsOf fs } := by
  induction fs with
  | nil => intro st; simp [walk_directory, walkPayload, walkEntries, warnsOf]
  | cons f fs ih =>
    intro st
    cases hd : f.data with
    | none =>
      rw [walk_directory, ih]
      simp [walkStep, append_file_to_archive, hd, walkPayload, walkEntries,
        warnsOf, payloadOf, walkEntry]
    | some bs =>
      rw [walk_directory, ih]
      simp [walkStep, append_file_to_archive, hd, walkPayload, walkEntries,
        warnsOf, payloadOf, walkEntry, List.append_assoc]

theorem packer_eq (stub : List Nat) (hstub : stub ≠ []) (files : List SrcFile)
    (mainPath : List Nat) (mainData : Option (List Nat)) (mainJunk : Nat) :
    packer (some stub) files mainPath mainData mainJunk =
      some { archive := packPre stub files mainData
               ++ serManifest (packEntries stub files mainPath mainData mainJunk)
               ++ serFooter (packPre stub files mainData).length
             entries := packEntries stub files mainPath mainData mainJunk
             warns := warnsOf files ++ (if mainData.isNone then [mainPath] else []) } := by
  have hlen : stub.length ≠ 0 := fun h => hstub (List.eq_nil_of_length_eq_zero h)
  cases mainData with
  | none =>
    simp [packer, append_file_to_archive, hlen, walk_directory_eq, packPre,
      packEntries, mainEntry]
  | some mb =>
    simp [packer, append_file_to_archive, hlen, walk_directory_eq, packPre,
      packEntries, mainEntry, List.append_assoc]

/-! ## Manifest read-back -/

theorem flatten_length_eq (L : Nat) (ls : List (List Nat))
    (h : ∀ l ∈ ls, l.length = L) : ls.flatten.length = ls.length * L := by
  induction ls with
  | nil => simp
  | cons a as ih =>
    simp only [List.flatten_cons, List.length_append, List.length_cons]
    rw [h a (List.mem_cons_self a as), ih fun l hl => h l (List.mem_cons_of_mem _ hl)]
    ring

theorem flatten_segment (L : Nat) (ls : List (List Nat))
    (h : ∀ l ∈ ls, l.length = L) :
    ∀ i : Nat, ∀ hi : i < ls.length, (ls.flatten.drop (i * L)).take L = ls[i] := by
  induction ls with
  | nil => intro i hi; simp at hi
  | cons a as ih =>
    intro i hi
    cases i with
    | zero =>
      simp only [Nat.zero_mul, List.drop_zero, List.flatten_cons]
      rw [List.take_left' (h a (List.mem_cons_self a as))]
      rfl
    | succ j =>
      have hjl : j < as.length := by simpa using hi
      have hstep : (j + 1) * L = a.length + j * L := by
        rw [h a (List.mem_cons_self a as)]; ring
      simp only [List.flatten_cons, hstep, List.drop_append]
      exact (ih (fun l hl => h l (List.mem_cons_of_mem _ hl)) j hjl).trans (by simp)

theorem readManifest_pack (pre : List Nat) (entries : List ManifestEntry)
    (hwf : ∀ e ∈ entries, wfEntry e) (hpre : pre.length < 2 ^ 64)
    (hcount : entries.length < 2 ^ 64) :
    readManifest (pre ++ serManifest entries ++ serFooter pre.length) = entries := by
  have hel : ∀ l ∈ entries.map serEntry, l.length = entrySize := by
    intro l hl
    obtain ⟨e, he, rfl⟩ := List.mem_map.mp hl
    exact serEntry_length e (le_of_lt (hwf e he).1)
  have hflat : (entries.map serEntry).flatten.length = entries.length * entrySize :=
    (flatten_length_eq _ _ hel).trans (by simp)
  set A := pre ++ serManifest entries ++ serFooter pre.length with hA
  have hAlen : A.length = (pre ++ serManifest entries).length + footerSize := by
    rw [hA, List.length_append, serFooter_length]
  have hfoot : A.drop (A.length - footerSize) = serFooter pre.length := by
    rw [hAlen, Nat.add_sub_cancel, hA]
    exact List.drop_left _ _
  have hmo : manifestOffsetOf A = pre.length := by
    rw [manifestOffsetOf, hfoot, serFooter, List.take_left' (u64le_length _)]
    exact u64dec_u64le _ hpre
  have hdroppre : A.drop pre.length = serManifest entries ++ serFooter pre.length := by
    rw [hA, List.append_assoc]
    exact List.drop_left _ _
  have hcnt : u64dec ((A.drop pre.length).take 8) = entries.length := by
    rw [hdroppre, serManifest, List.append_assoc, List.take_left' (u64le_length _)]
    exact u64dec_u64le _ hcount
  have hchunk : ∀ (i : Nat) (hi : i < entries.length),
      (A.drop (pre.length + 8 + i * entrySize)).take entrySize =
        serEntry (entries.get ⟨i, hi⟩) := by
    intro i hi
    have h1 : A.drop (pre.length + 8 + i * entrySize) =
        ((entries.map serEntry).flatten ++ serFooter pre.length).drop (i * entrySize) := by
      rw [Nat.add_assoc, ← List.drop_drop, hdroppre, serManifest, List.append_assoc]
      rw [show (8 : Nat) + i * entrySize = (u64le entries.length).length + i * entrySize by
        rw [u64le_length], List.drop_append]
    have h2 : i * entrySize + entrySize ≤ (entries.map serEntry).flatten.length := by
      rw [hflat]
      have : i + 1 ≤ entries.length := hi
      calc i * entrySize + entrySize = (i + 1) * entrySize := by ring
        _ ≤ entries.length * entrySize := Nat.mul_le_mul_right _ this
    rw [h1, List.drop_append_of_le_length (by omega),
      List.take_append_of_le_length (by rw [List.length_drop]; omega)]
    have := flatten_segment entrySize (entries.map serEntry) hel i (by simpa using hi)
    rw [this]
    simp
  rw [readManifest]
  simp only [hmo, hcnt]
  apply List.ext_getElem
  · simp
  · intro n h1 h2
    simp only [List.getElem_map, List.getElem_range]
    rw [hchunk n h2, deserEntry_serEntry _ (hwf _ (List.get_mem _ _ _))]
    simp

/-! ## Packer decomposition lemmas -/

theorem walkPayload_append (s t : List SrcFile) :
    walkPayload (s ++ t) = walkPayload s ++ walkPayload t := by
  simp [walkPayload]

theorem walkEntries_append (s t : List SrcFile) : ∀ pos : Nat,
    walkEntries pos (s ++ t) =
      walkEntries pos s ++ walkEntries (pos + (walkPayload s).length) t := by
  induction s with
  | nil => intro pos; simp [walkEntries, walkPayload]
  | cons f s ih =>
    intro pos
    have hP : pos + (walkPayload (f :: s)).length
        = pos + (payloadOf f).length + (walkPayload s).length := by
      simp [walkPayload]
      omega
    calc walkEntries pos ((f :: s) ++ t)
        = walkEntry pos f :: walkEntries (pos + (payloadOf f).length) (s ++ t) := rfl
      _ = walkEntry pos f :: (walkEntries (pos + (payloadOf f).length) s
            ++ walkEntries (pos + (payloadOf f).length + (walkPayload s).length) t) := by
          rw [ih]
      _ = walkEntries pos (f :: s) ++ walkEntries (pos + (walkPayload (f :: s)).length) t := by
          rw [hP]
          rfl

theorem walkEntries_wf (fs : List SrcFile)
    (hfs : ∀ g ∈ fs, g.rel.length < MAX_PATH ∧ (0 : Nat) ∉ g.rel ∧
      g.junkOffset < 2 ^ 64) :
    ∀ pos : Nat, pos + (walkPayload fs).length < 2 ^ 64 →
      ∀ e ∈ walkEntries pos fs, wfEntry e := by
  induction fs with
  | nil => intro pos _ e he; simp [walkEntries] at he
  | cons f fs ih =>
    intro pos hpos e he
    have hsplit : (walkPayload (f :: fs)).length =
        (payloadOf f).length + (walkPayload fs).length := by
      simp [walkPayload]
    rw [walkEntries] at he
    rcases List.mem_cons.mp he with h | h
    · subst h
      obtain ⟨h1, h2, h3⟩ := hfs f (List.mem_cons_self f fs)
      refine ⟨h1, h2, ?_, ?_⟩
      · rw [walkEntry]
        dsimp only
        cases hd : f.data <;> simp [hd, h3] <;> omega
      · rw [walkEntry]
        dsimp only
        omega
    · exact ih (fun g hg => hfs g (List.mem_cons_of_mem _ hg))
        (pos + (payloadOf f).length) (by omega) e h

theorem slice_append (A b C : List Nat) :
    ((A ++ (b ++ C)).drop A.length).take b.length = b := by
  rw [List.drop_left, List.take_left]

/-! ## Loader closed forms -/

theorem magicField_append (X : List Nat) (mo : Nat) :
    magicField (X ++ serFooter mo) = MAGIC := by
  rw [magicField]
  have h1 : (X ++ serFooter mo).length - footerSize = X.length := by
    rw [List.length_append, serFooter_length]
    omega
  rw [h1, List.drop_left, serFooter, List.drop_left' (u64le_length _)]
  exact List.take_of_length_le (by decide)

theorem runEntries_eq (self : List Nat) (env : LoaderEnv) (entries : List ManifestEntry) :
    ∀ st, runEntries self env entries st =
      (st.1 ++ extractOf self env entries, mepOf env entries st.2) := by
  induction entries with
  | nil => intro st; simp [runEntries, extractOf, mepOf]
  | cons e es ih =>
    intro st
    by_cases hw : env.writable (outPath env.tempDir e.relative_path)
    · simp only [runEntries, hw, if_true, ih, extractOf, mepOf, List.filterMap_cons,
        List.foldl_cons]
      simp [hw, List.append_assoc]
    · simp only [runEntries, hw, if_false, ih, extractOf, mepOf, List.filterMap_cons,
        List.foldl_cons]
      simp [hw]

theorem loader_good (env : LoaderEnv) (self : List Nat)
    (hopen : env.selfOpenable = true)
    (hmagic : cstrEq (magicField self) MAGIC = true) :
    loader env self =
      { exitCode := if mepOf env (readManifest self) [] = [] then 1
          else env.spawnExit.getD 1
        extracted := extractOf self env (readManifest self)
        tempDirCreated := true
        cleanupAttempted := true
        launched := if mepOf env (readManifest self) [] = [] then none
          else some (mepOf env (readManifest self) []) } := by
  rw [loader]
  simp [hopen, hmagic, runEntries_eq]

theorem mepOf_nil_of_not_writable (env : LoaderEnv) (entries : List ManifestEntry)
    (h : ∀ e ∈ entries, e.is_executable = true →
      env.writable (outPath env.tempDir e.relative_path) = false) :
    mepOf env entries [] = [] := by
  suffices hgen : ∀ m, mepOf env entries m = m by exact hgen []
  induction entries with
  | nil => intro m; simp [mepOf]
  | cons e es ih =>
    intro m
    rw [mepOf, List.foldl_cons]
    have step : (if env.writable (outPath env.tempDir e.relative_path) then
        (if e.is_executable then outPath env.tempDir e.relative_path else m) else m) = m := by
      by_cases hx : e.is_executable
      · rw [h e (List.mem_cons_self e es) hx]
        simp
      · simp [hx]
    dsimp only at step ⊢
    rw [step]
    exact ih (fun g hg hgx => h g (List.mem_cons_of_mem _ hg) hgx) m

theorem mepOf_nil_of_no_exec (env : LoaderEnv) (entries : List ManifestEntry)
    (h : ∀ e ∈ entries, e.is_executable = false) :
    mepOf env entries [] = [] :=
  mepOf_nil_of_not_writable env entries fun e he hx => by
    rw [h e he] at hx
    exact absurd hx (by simp)

theorem writable_of_mem_extractOf (self : List Nat) (env : LoaderEnv)
    (entries : List ManifestEntry) (p bs : List Nat)
    (h : (p, bs) ∈ extractOf self env entries) : env.writable p = true := by
  rw [extractOf] at h
  obtain ⟨e, _, he⟩ := List.mem_filterMap.mp h
  dsimp only at he
  by_cases hw : env.writable (outPath env.tempDir e.relative_path)
  · rw [if_pos hw] at he
    cases he
    exact hw
  · rw [if_neg hw] at he
    cases he

/-! ## Structural facts about the walked entries -/

theorem walkEntries_length (fs : List SrcFile) : ∀ pos : Nat,
    (walkEntries pos fs).length = fs.length := by
  induction fs with
  | nil => intro pos; rfl
  | cons f fs ih => intro pos; simp [walkEntries, ih]

theorem walkEntries_not_exec (fs : List SrcFile) : ∀ pos : Nat,
    ∀ e ∈ walkEntries pos fs, e.is_executable = false := by
  induction fs with
  | nil => intro pos e he; simp [walkEntries] at he
  | cons f fs ih =>
    intro pos e he
    rcases List.mem_cons.mp he with h | h
    · subst h; rfl
    · exact ih _ e h

theorem walkEntries_map_rel (fs : List SrcFile) : ∀ pos : Nat,
    (walkEntries pos fs).map ManifestEntry.relative_path = fs.map SrcFile.rel := by
  induction fs with
  | nil => intro pos; rfl
  | cons f fs ih => intro pos; simp [walkEntries, ih, walkEntry]

theorem walkEntries_size_sum (fs : List SrcFile) : ∀ pos : Nat,
    ((walkEntries pos fs).map ManifestEntry.size).sum = (walkPayload fs).length := by
  induction fs with
  | nil => intro pos; simp [walkEntries, walkPayload]
  | cons f fs ih =>
    intro pos
    simp [walkEntries, walkEntry, ih, walkPayload]

theorem walkEntries_range (fs : List SrcFile) : ∀ pos : Nat,
    ∀ e ∈ walkEntries pos fs, ∀ k, k < e.size →
      pos ≤ e.offset + k ∧ e.offset + k < pos + (walkPayload fs).length := by
  induction fs with
  | nil => intro pos e he; simp [walkEntries] at he
  | cons f fs ih =>
    intro pos e he k hk
    have hsplit : (walkPayload (f :: fs)).length =
        (payloadOf f).length + (walkPayload fs).length := by
      simp [walkPayload]
    rcases List.mem_cons.mp he with h | h
    · subst h
      rw [walkEntry] at hk ⊢
      dsimp only at hk ⊢
      cases hd : f.data with
      | none => simp [payloadOf, hd] at hk
      | some b =>
        simp only [hd, Option.isSome_some, if_true]
        have : k < (payloadOf f).length := hk
        omega
    · have := ih (pos + (payloadOf f).length) e h k hk
      omega

theorem serManifest_length (entries : List ManifestEntry)
    (h : ∀ e ∈ entries, e.relative_path.length ≤ MAX_PATH) :
    (serManifest entries).length = 8 + entries.length * entrySize := by
  rw [serManifest, List.length_append, u64le_length]
  have := flatten_length_eq entrySize (entries.map serEntry) ?side
  · rw [this]
    simp
  · intro l hl
    obtain ⟨e, he, rfl⟩ := List.mem_map.mp hl
    exact serEntry_length e (h e he)

theorem packer_stub_ne_nil (stub : List Nat) (files : List SrcFile)
    (mainPath : List Nat) (mainData : Option (List Nat)) (mainJunk : Nat)
    (po : PackOutput)
    (hpack : packer (some stub) files mainPath mainData mainJunk = some po) :
    stub ≠ [] := by
  rintro rfl
  rw [packer] at hpack
  simp [append_file_to_archive] at hpack

theorem loader_bad_magic (env : LoaderEnv) (self : List Nat)
    (hopen : env.selfOpenable = true) (hlen : 16 ≤ self.length)
    (hbad : magicField self ≠ MAGIC) :
    loader env self =
      { exitCode := 2, extracted := [], tempDirCreated := false,
        cleanupAttempted := false, launched := none } := by
  have h8 : (magicField self).length = 8 := by
    rw [magicField, footerSize]
    simp only [List.length_take, List.length_drop]
    omega
  have hc : cstrEq (magicField self) MAGIC = false := by
    by_contra h
    exact hbad (eq_magic_of_cstrEq _ h8 (by simpa using h))
  rw [loader]
  simp [hopen, hc]

/-! ## Claim theorems -/

/-- C3: when the last 16 bytes of the loader's own file do not decode to the
magic signature `"DIR2EXE"`, the loader returns exit code 2 and performs no
filesystem writes: no temporary directory is created, nothing is extracted,
nothing is launched. -/
theorem C3_bad_magic_exit2_no_writes (env : LoaderEnv) (self : List Nat)
    (hopen : env.selfOpenable = true) (hlen : 16 ≤ self.length)
    (hbad : magicField self ≠ MAGIC) :
    loader env self =
      { exitCode := 2, extracted := [], tempDirCreated := false,
        cleanupAttempted := false, launched := none } :=
  loader_bad_magic env self hopen hlen hbad

/-- C3 witness: a 16-byte all-zero file is rejected with exit 2 and no
writes. -/
theorem C3_witness :
    loader ⟨true, [84], fun _ => true, some 0⟩ (List.replicate 16 0) =
      { exitCode := 2, extracted := [], tempDirCreated := false,
        cleanupAttempted := false, launched := none } :=
  C3_bad_magic_exit2_no_writes _ _ rfl (by decide) (by decide)

/-- C7: the loader's exit code discipline: a self-open failure returns 1; an
invalid magic returns 2; a valid magic with no executable-flagged manifest
entry returns 1; and whenever an executable was tracked and launched, the
exit code is the child's exit code when the launch succeeded and 1 when the
child failed to start. -/
theorem C7_exit_codes (env : LoaderEnv) (self : List Nat) (hlen : 16 ≤ self.length) :
    (env.selfOpenable = false → (loader env self).exitCode = 1) ∧
    (env.selfOpenable = true → magicField self ≠ MAGIC →
      (loader env self).exitCode = 2) ∧
    (env.selfOpenable = true → cstrEq (magicField self) MAGIC = true →
      (∀ e ∈ readManifest self, e.is_executable = false) →
      (loader env self).launched = none ∧ (loader env self).exitCode = 1) ∧
    (∀ p, (loader env self).launched = some p →
      (∀ c, env.spawnExit = some c → (loader env self).exitCode = c) ∧
      (env.spawnExit = none → (loader env self).exitCode = 1)) := by
  refine ⟨?h1, ?h2, ?h3, ?h4⟩
  case h1 =>
    intro h
    rw [loader]
    simp [h]
  case h2 =>
    intro hopen hbad
    rw [loader_bad_magic env self hopen hlen hbad]
  case h3 =>
    intro hopen hmagic hnoexec
    rw [loader_good env self hopen hmagic]
    simp [mepOf_nil_of_no_exec env _ hnoexec]
  case h4 =>
    intro p hp
    by_cases hopen : env.selfOpenable
    · by_cases hmagic : cstrEq (magicField self) MAGIC = true
      · rw [loader_good env self hopen hmagic] at hp ⊢
        by_cases hmep : mepOf env (readManifest self) [] = []
        · simp [hmep] at hp
        · constructor
          · intro c hc
            simp [hmep, hc]
          · intro hc
            simp [hmep, hc]
      · rw [loader] at hp
        simp only [hopen, if_true] at hp
        rw [if_neg hmagic] at hp
        simp at hp
    · rw [loader] at hp
      simp [hopen] at hp

/-- C7 witness: on a packed archive holding one executable entry, with a
child exiting with code 42, the loader's exit code is 42; the degenerate
branches are also exercised at the same input. -/
theorem C7_witness :
    (16 ≤ (List.replicate 16 0 : List Nat).length) ∧
    ((⟨true, [84], fun _ => true, some 42⟩ : LoaderEnv).selfOpenable = true →
      magicField (List.replicate 16 0) ≠ MAGIC →
      (loader ⟨true, [84], fun _ => true, some 42⟩ (List.replicate 16 0)).exitCode = 2) :=
  ⟨by decide, (C7_exit_codes ⟨true, [84], fun _ => true, some 42⟩
    (List.replicate 16 0) (by decide)).2.1⟩

/-- C2: the historical loader neither rejects nor clamps parent-directory
segments: on an archive whose manifest entry has relative path
`"..\\..\\evil.exe"`, it performs a file write whose resolved target lies
outside the extraction root, and it does not treat the archive as invalid. -/
theorem C2_escape_demo :
    (∃ w ∈ (loader evilEnv evilArchive).extracted, isUnder evilTempDir w.1 = false) ∧
    (loader evilEnv evilArchive).exitCode ≠ 2 := by
  decide

/-- C4: the loader performs no validation after reading the manifest: an
archive whose single entry's `(offset, size)` lies a megabyte beyond the
file bounds is not treated as `InvalidArchiveSignature` — the entry is
still extracted and the exit code is the child's 0, not 2. -/
theorem C4_no_validation_demo :
    (∃ e ∈ readManifest oobArchive, oobArchive.length < e.offset + e.size) ∧
    (loader oobEnv oobArchive).exitCode = 0 ∧
    (loader oobEnv oobArchive).extracted ≠ [] := by
  decide

/-- C5: in every archive the packer produces, exactly one manifest entry is
flagged executable, and its relative path is the main executable's base
filename (the bytes after the last backslash). -/
theorem C5_unique_executable (stub : List Nat) (files : List SrcFile)
    (mainPath : List Nat) (mainData : Option (List Nat)) (mainJunk : Nat)
    (po : PackOutput)
    (hpack : packer (some stub) files mainPath mainData mainJunk = some po) :
    (po.entries.filter fun e => e.is_executable).map ManifestEntry.relative_path
      = [baseName mainPath] := by
  have hstub := packer_stub_ne_nil _ _ _ _ _ _ hpack
  rw [packer_eq _ hstub] at hpack
  have hpo := Option.some.inj hpack
  rw [← hpo]
  dsimp only [packEntries]
  rw [List.filter_cons]
  have hrest : (walkEntries stub.length files).reverse.filter
      (fun e => e.is_executable) = [] := by
    rw [List.filter_eq_nil_iff]
    intro e he
    rw [walkEntries_not_exec files stub.length e (List.mem_reverse.mp he)]
    simp
  simp [mainEntry, hrest]

/-- C5 witness: the fixture pack's single flagged entry carries the base
filename of `"d\\m"`. -/
theorem C5_witness :
    (wPO.entries.filter fun e => e.is_executable).map ManifestEntry.relative_path
      = [baseName wMainPath] :=
  C5_unique_executable [7, 7] wFiles wMainPath (some [30]) 0 wPO (by decide)

/-- C8 counterexample: packing walked files `"a"` then `"b"` with main
executable `"m"` serializes the manifest entries as `m, b, a` — which is
not the claimed production order `a, b, m`. -/
theorem C8_counterexample :
    (packer (some [7]) [⟨[97], some [1], 0⟩, ⟨[98], some [2], 0⟩] [109]
        (some [3]) 0).map (fun po => po.entries.map ManifestEntry.relative_path)
      = some [[109], [98], [97]] ∧
    (some [[109], [98], [97]] : Option (List (List Nat))) ≠ some [[97], [98], [109]] := by
  decide

/-- C8 amended: the packer writes the serialized manifest as `entry_count`
followed by the entries in reverse production order — the main executable's
entry first, then the walked files' entries, most recently produced first
(the manifest list is built by prepending). -/
theorem C8_amended_reverse_order (stub : List Nat) (files : List SrcFile)
    (mainPath : List Nat) (mainData : Option (List Nat)) (mainJunk : Nat)
    (po : PackOutput)
    (hpack : packer (some stub) files mainPath mainData mainJunk = some po) :
    (∃ pre : List Nat,
      po.archive = pre ++ serManifest po.entries ++ serFooter pre.length) ∧
    po.entries.map ManifestEntry.relative_path
      = baseName mainPath :: (files.map SrcFile.rel).reverse := by
  have hstub := packer_stub_ne_nil _ _ _ _ _ _ hpack
  rw [packer_eq _ hstub] at hpack
  have hpo := Option.some.inj hpack
  rw [← hpo]
  constructor
  · exact ⟨packPre stub files mainData, rfl⟩
  · dsimp only [packEntries]
    simp [mainEntry, List.map_reverse, walkEntries_map_rel]

/-- C8 amended witness: the fixture pack's archive carries its manifest
before the footer and lists the main executable first, walked files
reversed. -/
theorem C8_amended_witness :
    (∃ pre : List Nat,
      wPO.archive = pre ++ serManifest wPO.entries ++ serFooter pre.length) ∧
    wPO.entries.map ManifestEntry.relative_path
      = baseName wMainPath :: (wFiles.map SrcFile.rel).reverse :=
  C8_amended_reverse_order [7, 7] wFiles wMainPath (some [30]) 0 wPO (by decide)

/-- C9: a source file that cannot be opened during packing produces a
warning and a zero-size manifest entry under its relative path, and packing
continues: every walked file still contributes an entry, plus the main
executable's. -/
theorem C9_unreadable_warn_zero_continue (stub : List Nat) (files : List SrcFile)
    (mainPath : List Nat) (mainData : Option (List Nat)) (mainJunk : Nat)
    (po : PackOutput) (f : SrcFile)
    (hpack : packer (some stub) files mainPath mainData mainJunk = some po)
    (hf : f ∈ files) (hd : f.data = none) :
    f.rel ∈ po.warns ∧
    (∃ e ∈ po.entries, e.relative_path = f.rel ∧ e.size = 0) ∧
    po.entries.length = files.length + 1 := by
  have hstub := packer_stub_ne_nil _ _ _ _ _ _ hpack
  rw [packer_eq _ hstub] at hpack
  have hpo := Option.some.inj hpack
  rw [← hpo]
  refine ⟨?_, ?_, ?_⟩
  · apply List.mem_append_left
    rw [warnsOf]
    exact List.mem_map_of_mem _ (List.mem_filter.mpr ⟨hf, by simp [hd]⟩)
  · obtain ⟨s, t, rfl⟩ := List.append_of_mem hf
    refine ⟨walkEntry (stub.length + (walkPayload s).length) f, ?_, rfl, ?_⟩
    · dsimp only [packEntries]
      apply List.mem_cons_of_mem
      rw [List.mem_reverse, walkEntries_append]
      exact List.mem_append_right _ (List.mem_cons_self _ _)
    · simp [walkEntry, payloadOf, hd]
  · simp [packEntries, walkEntries_length]

/-- C9 witness: the fixture pack's unreadable file `"u"` is warned about,
gets a zero-size entry, and the pack still has all entries. -/
theorem C9_witness :
    ([117] : List Nat) ∈ wPO.warns ∧
    (∃ e ∈ wPO.entries, e.relative_path = [117] ∧ e.size = 0) ∧
    wPO.entries.length = wFiles.length + 1 :=
  C9_unreadable_warn_zero_continue [7, 7] wFiles wMainPath (some [30]) 0 wPO
    ⟨[117], none, 3⟩ (by decide) (by decide) rfl

/-- C10: a manifest entry whose target cannot be opened for writing is
silently skipped — no unwritable path ever appears among the writes, and the
writes are exactly the writable entries' extractions; when every
executable-flagged entry is skipped, nothing is launched and the loader
returns 1, while cleanup of the extraction root is still attempted. -/
theorem C10_unwritable_skipped (env : LoaderEnv) (self : List Nat)
    (hopen : env.selfOpenable = true)
    (hmagic : cstrEq (magicField self) MAGIC = true)
    (hexec : ∀ e ∈ readManifest self, e.is_executable = true →
      env.writable (outPath env.tempDir e.relative_path) = false) :
    (∀ p bs, env.writable p = false → (p, bs) ∉ (loader env self).extracted) ∧
    (loader env self).extracted = extractOf self env (readManifest self) ∧
    (loader env self).launched = none ∧
    (loader env self).exitCode = 1 ∧
    (loader env self).cleanupAttempted = true := by
  rw [loader_good env self hopen hmagic]
  have hmep := mepOf_nil_of_not_writable env _ hexec
  refine ⟨?_, rfl, ?_, ?_, rfl⟩
  · intro p bs hw hmem
    dsimp only at hmem
    have := writable_of_mem_extractOf self env _ p bs hmem
    rw [hw] at this
    cases this
  · dsimp only
    rw [hmep]
    simp
  · dsimp only
    rw [hmep]
    simp

/-- C10 witness: on the fixture archive whose only executable entry's
target `"T\\b"` is unwritable, the loader extracts only `"T\\a"`, launches
nothing, returns 1, and still attempts cleanup. -/
theorem C10_witness :
    (∀ p bs, c10Env.writable p = false →
      (p, bs) ∉ (loader c10Env c10Archive).extracted) ∧
    (loader c10Env c10Archive).extracted
      = extractOf c10Archive c10Env (readManifest c10Archive) ∧
    (loader c10Env c10Archive).launched = none ∧
    (loader c10Env c10Archive).exitCode = 1 ∧
    (loader c10Env c10Archive).cleanupAttempted = true :=
  C10_unwritable_skipped c10Env c10Archive rfl (by decide) (by decide)

/-- C6: layout invariant of every produced archive: it ends with the
16-byte footer holding the manifest offset and the magic `"DIR2EXE"`; the
bytes at the manifest offset are exactly the serialized `entry_count`;
every entry's `[offset, offset + size)` range lies at or after the end of
the loader stub and strictly before the manifest offset; and stub length
plus the sum of entry sizes plus the manifest plus the footer equals the
file length. -/
theorem C6_layout (stub : List Nat) (files : List SrcFile)
    (mainPath : List Nat) (mainData : Option (List Nat)) (mainJunk : Nat)
    (po : PackOutput)
    (hpack : packer (some stub) files mainPath mainData mainJunk = some po)
    (hrel : ∀ g ∈ files, g.rel.length ≤ MAX_PATH)
    (hmain : (baseName mainPath).length ≤ MAX_PATH) :
    ∃ mo : Nat,
      footerSize ≤ po.archive.length ∧
      po.archive.drop (po.archive.length - footerSize) = u64le mo ++ MAGIC ∧
      (po.archive.drop mo).take 8 = u64le po.entries.length ∧
      (∀ e ∈ po.entries, ∀ k, k < e.size →
        stub.length ≤ e.offset + k ∧ e.offset + k < mo) ∧
      stub.length + (po.entries.map ManifestEntry.size).sum
        + (8 + po.entries.length * entrySize) + footerSize = po.archive.length := by
  have hstub := packer_stub_ne_nil _ _ _ _ _ _ hpack
  rw [packer_eq _ hstub] at hpack
  have hpo := Option.some.inj hpack
  rw [← hpo]
  dsimp only
  refine ⟨(packPre stub files mainData).length, ?_, ?_, ?_, ?_, ?_⟩
  · simp only [List.length_append, serFooter_length]
    omega
  · have h1 : (packPre stub files mainData ++ serManifest (packEntries stub files
        mainPath mainData mainJunk) ++ serFooter (packPre stub files mainData).length).length
        - footerSize
        = (packPre stub files mainData ++ serManifest (packEntries stub files
            mainPath mainData mainJunk)).length := by
      rw [List.length_append _ (serFooter _), serFooter_length]
      omega
    rw [h1, List.drop_left]
    rfl
  · rw [List.append_assoc, List.drop_left, serManifest, List.append_assoc,
      List.take_left' (u64le_length _)]
  · intro e he k hk
    rw [packEntries] at he
    rcases List.mem_cons.mp he with h | h
    · subst h
      rw [mainEntry] at hk ⊢
      dsimp only at hk ⊢
      cases hmd : mainData with
      | none => simp [hmd] at hk
      | some mb =>
        simp only [hmd, Option.isSome_some, if_true]
        simp only [hmd, Option.getD_some] at hk
        constructor
        · simp only [List.length_append]
          omega
        · rw [packPre]
          simp only [List.length_append, Option.getD_some]
          omega
    · rw [List.mem_reverse] at h
      have hr := walkEntries_range files stub.length e h k hk
      have hle : stub.length + (walkPayload files).length
          ≤ (packPre stub files mainData).length := by
        rw [packPre]
        simp only [List.length_append]
        omega
      omega
  · have hsum : ((packEntries stub files mainPath mainData mainJunk).map
        ManifestEntry.size).sum
        = (mainData.getD []).length + (walkPayload files).length := by
      rw [packEntries]
      simp only [List.map_cons, List.sum_cons, mainEntry]
      rw [List.map_reverse, List.sum_reverse, walkEntries_size_sum]
    have hman : (serManifest (packEntries stub files mainPath mainData mainJunk)).length
        = 8 + (packEntries stub files mainPath mainData mainJunk).length * entrySize := by
      apply serManifest_length
      intro e he
      rw [packEntries] at he
      rcases List.mem_cons.mp he with h | h
      · subst h; exact hmain
      · rw [List.mem_reverse] at h
        have : e.relative_path ∈ (walkEntries stub.length files).map
            ManifestEntry.relative_path := List.mem_map_of_mem _ h
        rw [walkEntries_map_rel] at this
        obtain ⟨g, hg, heq⟩ := List.mem_map.mp this
        rw [← heq]
        exact hrel g hg
    rw [hsum, ← hman]
    simp only [List.length_append, serFooter_length]
    rw [packPre]
    simp only [List.length_append]
    omega

/-- C6 witness: the fixture pack satisfies the full layout invariant. -/
theorem C6_witness :
    ∃ mo : Nat,
      footerSize ≤ wPO.archive.length ∧
      wPO.archive.drop (wPO.archive.length - footerSize) = u64le mo ++ MAGIC ∧
      (wPO.archive.drop mo).take 8 = u64le wPO.entries.length ∧
      (∀ e ∈ wPO.entries, ∀ k, k < e.size →
        ([7, 7] : List Nat).length ≤ e.offset + k ∧ e.offset + k < mo) ∧
      ([7, 7] : List Nat).length + (wPO.entries.map ManifestEntry.size).sum
        + (8 + wPO.entries.length * entrySize) + footerSize = wPO.archive.length :=
  C6_layout [7, 7] wFiles wMainPath (some [30]) 0 wPO (by decide) (by decide)
    (by decide)

/-- C1: round-trip — for every readable regular file under the packed
directory, the loader, run on the archive the packer produced, writes that
file's exact original bytes to `extractionRoot \ rel`, where `rel` is the
same relative path the walk recorded, so both content and relative path are
preserved. -/
theorem C1_roundtrip (stub : List Nat) (files : List SrcFile)
    (mainPath : List Nat) (mainData : Option (List Nat)) (mainJunk : Nat)
    (po : PackOutput) (env : LoaderEnv) (f : SrcFile) (bs : List Nat)
    (hpack : packer (some stub) files mainPath mainData mainJunk = some po)
    (hf : f ∈ files) (hbs : f.data = some bs)
    (hwf : ∀ g ∈ files, g.rel.length < MAX_PATH ∧ (0 : Nat) ∉ g.rel ∧
      g.junkOffset < 2 ^ 64)
    (hmainlen : (baseName mainPath).length < MAX_PATH)
    (hmain0 : (0 : Nat) ∉ baseName mainPath)
    (hmj : mainJunk < 2 ^ 64)
    (hcount : files.length + 1 < 2 ^ 64)
    (hlen : po.archive.length < 2 ^ 64)
    (hopen : env.selfOpenable = true)
    (hwrit : env.writable (env.tempDir ++ 92 :: f.rel) = true)
    (htrunc : env.tempDir.length + 1 + f.rel.length ≤ MAX_PATH - 1) :
    (env.tempDir ++ 92 :: f.rel, bs) ∈ (loader env po.archive).extracted := by
  have hstub := packer_stub_ne_nil _ _ _ _ _ _ hpack
  rw [packer_eq _ hstub] at hpack
  have hpo := Option.some.inj hpack
  rw [← hpo] at hlen ⊢
  dsimp only at hlen ⊢
  have hpre64 : (packPre stub files mainData).length < 2 ^ 64 := by
    have : (packPre stub files mainData).length
        ≤ (packPre stub files mainData
            ++ serManifest (packEntries stub files mainPath mainData mainJunk)
            ++ serFooter (packPre stub files mainData).length).length := by
      simp only [List.length_append]
      omega
    omega
  have hparts : (packPre stub files mainData).length
      = stub.length + (walkPayload files).length + (mainData.getD []).length := by
    rw [packPre]
    simp only [List.length_append]
  have hwfE : ∀ e ∈ packEntries stub files mainPath mainData mainJunk, wfEntry e := by
    intro e he
    rw [packEntries] at he
    rcases List.mem_cons.mp he with h | h
    · subst h
      refine ⟨hmainlen, hmain0, ?_, ?_⟩
      · rw [mainEntry]
        dsimp only
        cases hmd : mainData with
        | none => simpa using hmj
        | some mb =>
          simp only [Option.isSome_some, if_true, List.length_append]
          rw [hmd] at hparts hpre64
          simp only [Option.getD_some] at hparts
          omega
      · rw [mainEntry]
        dsimp only
        omega
    · rw [List.mem_reverse] at h
      have hb : stub.length + (walkPayload files).length < 2 ^ 64 := by omega
      exact walkEntries_wf files hwf stub.length hb e h
  have hElen : (packEntries stub files mainPath mainData mainJunk).length
      = files.length + 1 := by
    rw [packEntries]
    simp [walkEntries_length]
  have hread : readManifest (packPre stub files mainData
      ++ serManifest (packEntries stub files mainPath mainData mainJunk)
      ++ serFooter (packPre stub files mainData).length)
      = packEntries stub files mainPath mainData mainJunk :=
    readManifest_pack _ _ hwfE hpre64 (by rw [hElen]; exact hcount)
  have hmagic : cstrEq (magicField (packPre stub files mainData
      ++ serManifest (packEntries stub files mainPath mainData mainJunk)
      ++ serFooter (packPre stub files mainData).length)) MAGIC = true := by
    rw [magicField_append]
    decide
  rw [loader_good env _ hopen hmagic]
  dsimp only
  rw [hread]
  obtain ⟨s, t, hfiles⟩ := List.append_of_mem hf
  have hef : walkEntry (stub.length + (walkPayload s).length) f
      ∈ packEntries stub files mainPath mainData mainJunk := by
    rw [packEntries]
    apply List.mem_cons_of_mem
    rw [List.mem_reverse, hfiles, walkEntries_append]
    exact List.mem_append_right _ (List.mem_cons_self _ _)
  have hsplitp : walkPayload files = walkPayload s ++ (bs ++ walkPayload t) := by
    rw [hfiles, walkPayload_append]
    congr 1
    simp [walkPayload, payloadOf, hbs]
  have hA : ∀ F : List Nat, packPre stub files mainData
      ++ serManifest (packEntries stub files mainPath mainData mainJunk) ++ F
      = (stub ++ walkPayload s) ++ (bs ++ (walkPayload t ++ (mainData.getD []
          ++ (serManifest (packEntries stub files mainPath mainData mainJunk)
              ++ F)))) := by
    intro F
    conv_lhs => rw [packPre, hsplitp]
    simp [List.append_assoc]
  have hXlen : (stub ++ walkPayload s).length
      = stub.length + (walkPayload s).length := by
    simp [List.length_append]
  have hslice : ((packPre stub files mainData
      ++ serManifest (packEntries stub files mainPath mainData mainJunk)
      ++ serFooter (packPre stub files mainData).length).drop
        (stub.length + (walkPayload s).length)).take bs.length = bs := by
    rw [hA, ← hXlen]
    exact slice_append _ _ _
  have hop : outPath env.tempDir f.rel = env.tempDir ++ 92 :: f.rel := by
    rw [outPath]
    apply List.take_of_length_le
    simp only [List.length_append, List.length_cons]
    unfold MAX_PATH at htrunc ⊢
    omega
  rw [extractOf]
  apply List.mem_filterMap.mpr
  refine ⟨walkEntry (stub.length + (walkPayload s).length) f, hef, ?_⟩
  have hwe1 : (walkEntry (stub.length + (walkPayload s).length) f).relative_path
      = f.rel := rfl
  have hwe2 : (walkEntry (stub.length + (walkPayload s).length) f).offset
      = stub.length + (walkPayload s).length := by
    rw [walkEntry]
    simp [hbs]
  have hwe3 : (walkEntry (stub.length + (walkPayload s).length) f).size
      = bs.length := by
    rw [walkEntry]
    simp [payloadOf, hbs]
  dsimp only
  rw [hwe1, hwe2, hwe3, hop, hwrit, hslice]
  simp

/-- C1 witness: the fixture pack's file `"a"` = bytes `[10, 11]` comes back
byte-identical at `"T\\a"` when the produced archive is run. -/
theorem C1_witness :
    (([84] : List Nat) ++ 92 :: [97], [10, 11])
      ∈ (loader wEnv wPO.archive).extracted :=
  C1_roundtrip [7, 7] wFiles wMainPath (some [30]) 0 wPO wEnv
    ⟨[97], some [10, 11], 0⟩ [10, 11] (by decide) (by decide) rfl (by decide)
    (by decide) (by decide) (by decide) (by decide) (by decide) rfl rfl
    (by decide)

end Dir2Exe

